import Mathlib

/-!
Verification of the submodel-composition layer and the finite-volume
discretisation layer of a battery-modelling code base.

The development has two halves.  The first half is a computable embedding of
the string-and-dictionary manipulating code: submodel selection
(`setPorositySubmodel`, `setSeiSubmodel`), degradation bookkeeping
(`setDegradationVariables`), default parameter selection
(`defaultParameterValues`), and the submodel composition engine
(`assembleCore`).  The second half is a real-valued embedding of the
finite-volume gradient and divergence operators on the uniform test meshes,
over which the convergence-rate properties are proved.
-/

/-- Symbolic expression tree: the subset of expression nodes needed by the
porosity and degradation submodels (scalars, named parameters, named
variables, arithmetic, and full broadcasts over a domain). -/
inductive PExpr where
  | scalar (q : ℚ)
  | param (name : String)
  | varNode (name : String)
  | add (a b : PExpr)
  | sub (a b : PExpr)
  | mul (a b : PExpr)
  | div (a b : PExpr)
  | fullBroadcast (child : PExpr) (domain : String) (auxiliary : String)
deriving DecidableEq, Repr

/-- Insertion-ordered variable mapping from name to expression; the most
recent insertion for a key wins on lookup, matching dictionary update
semantics. -/
abbrev VarMap := List (String × PExpr)

/-- Lookup of the most recently inserted binding for a key. -/
def lookupVar : VarMap → String → Option PExpr
  | [], _ => none
  | (k, v) :: m, key => if key = k then some v else lookupVar m key

/-- Insertion into the mapping; models a dictionary update of one key. -/
def insertVar (m : VarMap) (k : String) (v : PExpr) : VarMap := (k, v) :: m

/-- The built-in sum of a list of expressions, which starts from the
integer 0 and folds addition from the left. -/
def pySum (l : List PExpr) : PExpr := l.foldl PExpr.add (PExpr.scalar 0)

/-- First whitespace-separated word of a string, modelling a split on
spaces followed by taking the head. -/
def firstWord (s : String) : String := String.mk (s.toList.takeWhile (fun c => c ≠ ' '))

/-- Lower-cased copy of a string. -/
def lowerString (s : String) : String := String.mk (s.toList.map Char.toLower)

/-- One-character string holding the first character, modelling indexing a
string at position zero. -/
def firstChar (s : String) : String := String.mk (s.toList.take 1)

/-- The default parameter set is Marquis2019 exactly on the standard
three-domain whole cell and Xu2019 otherwise, as in
`default_parameter_values`. -/
def defaultParameterValues (wholeCellDomains : List String) : String :=
  if wholeCellDomains = ["negative electrode", "separator", "positive electrode"] then
    "Marquis2019"
  else
    "Xu2019"

/-- Porosity submodel selection from `set_porosity_submodel`: the Constant
variant when both porosity-change options are the string false, the
ReactionDriven variant when either is the string true, and no registration
otherwise. -/
def setPorositySubmodel (seiPorosityChange lithiumPlatingPorosityChange : String) :
    Option String :=
  if seiPorosityChange = "false" ∧ lithiumPlatingPorosityChange = "false" then
    some ("Constant")
  else if seiPorosityChange = "true" ∨ lithiumPlatingPorosityChange = "true" then
    some ("ReactionDriven")
  else
    none

/-- The dictionary of porosity values built by
`Constant.get_fundamental_variables`: each whole-cell domain is mapped to
the initial-porosity parameter of its electrode (the first word of the
domain name selects the per-domain parameter set). -/
def constantPorosityEpsDict (wholeCellDomains : List String) : VarMap :=
  wholeCellDomains.map
    (fun domain => (domain, PExpr.param (firstWord domain ++ " epsilon_init")))

/-- The dictionary of porosity-change values built by
`Constant.get_fundamental_variables`: each whole-cell domain is mapped to a
full broadcast of the scalar zero over that domain. -/
def constantPorosityDepsdtDict (wholeCellDomains : List String) : VarMap :=
  wholeCellDomains.map
    (fun domain =>
      (domain, PExpr.fullBroadcast (PExpr.scalar 0) domain ("current collector")))

/-- The private equation collections a submodel populates during the four
set phases of the submodel contract. -/
structure SubmodelEquations where
  rhs : VarMap
  algebraic : VarMap
  boundaryConditions : List (String × PExpr × PExpr)
  events : List PExpr
deriving DecidableEq, Repr

/-- The polymorphic submodel contract: fundamental variables plus the four
set phases, each mapping the current collections and the shared variable
mapping to updated collections. -/
structure SubmodelImpl where
  getFundamentalVariables : List String → VarMap
  setRhs : SubmodelEquations → VarMap → SubmodelEquations
  setAlgebraic : SubmodelEquations → VarMap → SubmodelEquations
  setBoundaryConditions : SubmodelEquations → VarMap → SubmodelEquations
  setEvents : SubmodelEquations → VarMap → SubmodelEquations

/-- The `set_events` body of the constant porosity submodel: a bare pass
statement, so the collections are returned unchanged for every input
variable mapping. -/
def constantPorositySetEvents (s : SubmodelEquations) (_variables : VarMap) :
    SubmodelEquations := s

/-- Fundamental variables of the constant porosity submodel.  Modelled from
the spec: the helper that turns the two per-domain dictionaries into named
standard variables is not part of the sources, so the submodel exposes the
two dictionaries built in `Constant.get_fundamental_variables` directly,
keyed by domain. -/
def constantPorosityGetFundamentalVariables (wholeCellDomains : List String) : VarMap :=
  constantPorosityEpsDict wholeCellDomains ++ constantPorosityDepsdtDict wholeCellDomains

/-- The constant porosity submodel as an instance of the full submodel
contract.  Modelled from the spec: the rhs, algebraic and
boundary-condition phases are inherited no-op defaults of the base porosity
class, which is not part of the sources; the events phase is the pass
statement from the sources. -/
def constantPorositySubmodel : SubmodelImpl where
  getFundamentalVariables := constantPorosityGetFundamentalVariables
  setRhs := fun s _ => s
  setAlgebraic := fun s _ => s
  setBoundaryConditions := fun s _ => s
  setEvents := constantPorositySetEvents

/-- The option values consulted by `set_sei_submodel`. -/
structure SeiOptions where
  electrodeTypeNegative : String
  xAverageSideReactions : String
  sei : String
  seiOnCracks : String
deriving DecidableEq, Repr

/-- The SEI submodel variants that `set_sei_submodel` can register. -/
inductive SeiSubmodel where
  | noSEI (cracks : Bool)
  | constantSEI
  | seiGrowth (reactionLoc : String) (cracks : Bool)
deriving DecidableEq, Repr

/-- The reaction location computed at the top of `set_sei_submodel`. -/
def seiReactionLoc (o : SeiOptions) : String :=
  if o.electrodeTypeNegative = "planar" then "interface"
  else if o.xAverageSideReactions = "true" then "x-average"
  else "full electrode"

/-- Faithful embedding of `set_sei_submodel`: always registers one sei
submodel chosen by the SEI option, and additionally registers a
sei-on-cracks submodel whenever the reaction location is not the interface,
choosing the NoSEI variant when SEI is none or constant or the
SEI-on-cracks option is the string false. -/
def setSeiSubmodel (o : SeiOptions) : List (String × SeiSubmodel) :=
  let reactionLoc := seiReactionLoc o
  let seiMain : SeiSubmodel :=
    if o.sei = "none" then SeiSubmodel.noSEI false
    else if o.sei = "constant" then SeiSubmodel.constantSEI
    else SeiSubmodel.seiGrowth reactionLoc false
  let base := [("sei", seiMain)]
  if reactionLoc ≠ "interface" then
    base ++ [("sei on cracks",
      if o.sei = "none" ∨ o.sei = "constant" ∨ o.seiOnCracks = "false" then
        SeiSubmodel.noSEI true
      else
        SeiSubmodel.seiGrowth reactionLoc true)]
  else base

/-- One iteration of the per-electrode loop of `set_degradation_variables`:
sums the per-phase lithium totals into the per-domain total, then computes
the loss-of-active-material expression from the domain capacity and stores
it under both of its names. -/
def degradationDomainStep (phases : String → List String) (vars : VarMap)
    (bigDomain : String) : Option VarMap := do
  let domain := lowerString bigDomain
  let phaseLi ← (phases (firstWord domain)).mapM
    (fun phase =>
      lookupVar vars ("Total lithium in " ++ phase ++ " phase in " ++ domain ++ " [mol]"))
  let vars := insertVar vars ("Total lithium in " ++ domain ++ " [mol]") (pySum phaseLi)
  let cK ← lookupVar vars (bigDomain ++ " capacity [A.h]")
  let _nLiK ← lookupVar vars ("Total lithium in " ++ domain ++ " [mol]")
  let capInit := PExpr.param (firstChar domain ++ " cap_init")
  let lam := PExpr.mul (PExpr.sub (PExpr.scalar 1) (PExpr.div cK capInit)) (PExpr.scalar 100)
  let vars := insertVar vars ("LAM_" ++ firstChar domain ++ "e [%]") lam
  let vars := insertVar vars ("Loss of active material in " ++ domain ++ " [%]") lam
  return vars

/-- Faithful embedding of `set_degradation_variables`: iterates the
per-electrode step over the non-separator whole-cell domains, then stores
the lithium-inventory accounting variables (total lithium as the sum of the
particle and electrolyte totals, losses against the initial-inventory
parameters, and the loss-percentage expressions each under two names), and
finally the side-reaction totals.  A lookup of a missing variable aborts
with none, modelling a key error. -/
def setDegradationVariables (wholeCellDomains : List String)
    (phases : String → List String) (vars : VarMap) : Option VarMap := do
  let domains := wholeCellDomains.filter (fun d => d ≠ "Separator")
  let vars ← domains.foldlM (degradationDomainStep phases) vars
  let nLiE ← lookupVar vars ("Total lithium in electrolyte [mol]")
  let perDomain ← domains.mapM
    (fun d => lookupVar vars ("Total lithium in " ++ lowerString d ++ " [mol]"))
  let nLiParticles := pySum perDomain
  let nLi := PExpr.add nLiParticles nLiE
  let lli := PExpr.mul
    (PExpr.sub (PExpr.scalar 1) (PExpr.div nLiParticles (PExpr.param ("n_Li_particles_init"))))
    (PExpr.scalar 100)
  let lliTot := PExpr.mul
    (PExpr.sub (PExpr.scalar 1) (PExpr.div nLi (PExpr.param ("n_Li_init"))))
    (PExpr.scalar 100)
  let vars := insertVar vars ("LLI [%]") lli
  let vars := insertVar vars ("Loss of lithium inventory [%]") lli
  let vars := insertVar vars ("Loss of lithium inventory, including electrolyte [%]") lliTot
  let vars := insertVar vars ("Total lithium [mol]") nLi
  let vars := insertVar vars ("Total lithium in particles [mol]") nLiParticles
  let vars := insertVar vars ("Total lithium lost [mol]")
    (PExpr.sub (PExpr.param ("n_Li_init")) nLi)
  let vars := insertVar vars ("Total lithium lost from particles [mol]")
    (PExpr.sub (PExpr.param ("n_Li_particles_init")) nLiParticles)
  let vars := insertVar vars ("Total lithium lost from electrolyte [mol]")
    (PExpr.sub (PExpr.param ("n_Li_e_init")) nLiE)
  let lliSei ← lookupVar vars ("Loss of lithium to SEI [mol]")
  let lliReactions ←
    if "Negative electrode" ∈ domains then do
      let lliSeiCracks ← lookupVar vars ("Loss of lithium to SEI on cracks [mol]")
      let lliPl ← lookupVar vars ("Loss of lithium to lithium plating [mol]")
      pure (PExpr.add lliSei (PExpr.add lliSeiCracks lliPl))
    else
      pure lliSei
  let vars := insertVar vars ("Total lithium lost to side reactions [mol]") lliReactions
  let vars := insertVar vars ("Total capacity lost to side reactions [A.h]")
    (PExpr.div (PExpr.mul lliReactions (PExpr.param ("F"))) (PExpr.scalar 3600))
  return vars

/-- A variable declaration contributed by a submodel: name, domain, and
whether it is a differential or an algebraic unknown. -/
structure VarDecl where
  name : String
  domain : String
  kind : String
deriving DecidableEq, Repr

/-- An equation contributed by a submodel, keyed by the variable it
determines, its domain, and its kind. -/
structure ModelEquation where
  target : String
  domain : String
  kind : String
deriving DecidableEq, Repr

/-- A submodel as seen by the composition engine: its variable declarations
and its equations. -/
structure PSubmodel where
  decls : List VarDecl
  eqns : List ModelEquation
deriving DecidableEq, Repr

/-- An ordered registry from role name to submodel. -/
abbrev SubmodelRegistry := List (String × PSubmodel)

/-- The structural errors the composition engine can raise. -/
inductive AssemblyError where
  | modelError
  | underdeterminedError
  | overdeterminedError
deriving DecidableEq, Repr

/-- All variable declarations of a registry, in registry order. -/
def registryDecls (reg : SubmodelRegistry) : List VarDecl :=
  (reg.map (fun rs => rs.2.decls)).flatten

/-- All equations of a registry, in registry order. -/
def registryEqns (reg : SubmodelRegistry) : List ModelEquation :=
  (reg.map (fun rs => rs.2.eqns)).flatten

/-- An equation matches a declared variable when the name, the domain and
the kind all agree. -/
def eqnMatches (v : VarDecl) (e : ModelEquation) : Bool :=
  e.target == v.name && e.domain == v.domain && e.kind == v.kind

/-- Number of equations of the collection that determine the given
variable. -/
def matchCount (es : List ModelEquation) (v : VarDecl) : Nat :=
  (es.filter (eqnMatches v)).length

/-- Modelled from the spec: the well-posedness check of the composition
engine (the concrete assembly code is not part of the sources).  Duplicate
variable names raise a model error; a variable with no matching equation
raises an underdetermined error; a variable with several matching equations
raises an overdetermined error; otherwise assembly returns the collected
model. -/
def assembleCore (vs : List VarDecl) (es : List ModelEquation) :
    Except AssemblyError (List VarDecl × List ModelEquation) :=
  if ¬ (vs.map VarDecl.name).Nodup then Except.error AssemblyError.modelError
  else if vs.any (fun v => matchCount es v == 0) then
    Except.error AssemblyError.underdeterminedError
  else if vs.any (fun v => 1 < matchCount es v) then
    Except.error AssemblyError.overdeterminedError
  else Except.ok (vs, es)

/-- Assembly of a registry: the well-posedness check over all collected
declarations and equations. -/
def assemble (reg : SubmodelRegistry) :
    Except AssemblyError (List VarDecl × List ModelEquation) :=
  assembleCore (registryDecls reg) (registryEqns reg)

/-- A registry is well posed when variable names are unique and every
declared variable has exactly one equation in a matching domain. -/
def wellPosedRegistry (reg : SubmodelRegistry) : Prop :=
  ((registryDecls reg).map VarDecl.name).Nodup ∧
    ∀ v ∈ registryDecls reg, matchCount (registryEqns reg) v = 1

/-- Modelled from the spec: the composite-capacitance model as a registry
(the concrete lead-acid model classes are not part of the sources).  Each
submodel declares its unknowns with matching equations; the capacitance
switch only toggles the electrode-potential equations between differential
and algebraic. -/
def compositeCapacitanceRegistry (useCapacitance : Bool) : SubmodelRegistry :=
  let potKind := if useCapacitance then "rhs" else "algebraic"
  [ ("porosity",
      ⟨[⟨"Porosity", "whole cell", "rhs"⟩], [⟨"Porosity", "whole cell", "rhs"⟩]⟩),
    ("electrolyte concentration",
      ⟨[⟨"Electrolyte concentration", "whole cell", "rhs"⟩],
        [⟨"Electrolyte concentration", "whole cell", "rhs"⟩]⟩),
    ("negative electrode potential",
      ⟨[⟨"Negative electrode surface potential difference", "negative electrode", potKind⟩],
        [⟨"Negative electrode surface potential difference", "negative electrode", potKind⟩]⟩),
    ("positive electrode potential",
      ⟨[⟨"Positive electrode surface potential difference", "positive electrode", potKind⟩],
        [⟨"Positive electrode surface potential difference", "positive electrode", potKind⟩]⟩) ]

noncomputable section

/-- Modelled from the spec: the uniform test meshes are not part of the
sources.  A uniform submesh of the unit interval with n cells has cell-face
(edge) coordinates at i / n. -/
def meshEdge (n : ℕ) (i : ℕ) : ℝ := (i : ℝ) / (n : ℝ)

/-- Cell-center (node) coordinates of the uniform n-cell mesh, the
midpoints between consecutive edges. -/
def meshNode (n : ℕ) (i : ℕ) : ℝ := (2 * (i : ℝ) + 1) / (2 * (n : ℝ))

/-- Modelled from the spec: the finite-volume gradient of a cell-centered
field with Dirichlet boundary values, evaluated at the n + 1 faces of the
uniform n-cell mesh.  An interior face uses the difference quotient of the
two adjacent nodes; a boundary face places a ghost value at the boundary and
uses the one-sided difference over the half-cell distance to the first
interior node. -/
def fvGradDirichlet (n : ℕ) (gl gr : ℝ) (y : ℕ → ℝ) (i : ℕ) : ℝ :=
  if i = 0 then (y 0 - gl) / (meshNode n 0 - meshEdge n 0)
  else if i = n then (gr - y (n - 1)) / (meshEdge n n - meshNode n (n - 1))
  else (y i - y (i - 1)) / (meshNode n i - meshNode n (i - 1))

/-- The test field: the squared sine sampled at the cell centers. -/
def gradInputField (n : ℕ) (i : ℕ) : ℝ := Real.sin (meshNode n i) ^ 2

/-- The analytic derivative of the squared sine. -/
def gradExact (x : ℝ) : ℝ := 2 * Real.sin x * Real.cos x

/-- Face error of the discrete gradient of the squared-sine field with
Dirichlet values 0 and the squared sine of one, against the analytic
derivative at the face. -/
def gradApproxErr (n : ℕ) (i : ℕ) : ℝ :=
  fvGradDirichlet n 0 (Real.sin 1 ^ 2) (gradInputField n) i - gradExact (meshEdge n i)

/-- Modelled from the spec: the Cartesian finite-volume divergence of a
face flux, the net face difference over the cell width. -/
def fvDivCartesian (n : ℕ) (flux : ℝ → ℝ) (i : ℕ) : ℝ :=
  (flux (meshEdge n (i + 1)) - flux (meshEdge n i)) /
    (meshEdge n (i + 1) - meshEdge n i)

/-- Modelled from the spec: the spherical finite-volume divergence of a
face flux, the difference of the area-weighted face fluxes over the exact
cell volume integral of the squared radius. -/
def fvDivSpherical (n : ℕ) (flux : ℝ → ℝ) (i : ℕ) : ℝ :=
  (meshEdge n (i + 1) ^ 2 * flux (meshEdge n (i + 1)) -
      meshEdge n i ^ 2 * flux (meshEdge n i)) /
    ((meshEdge n (i + 1) ^ 3 - meshEdge n i ^ 3) / 3)

/-- Cell error of the Cartesian divergence of the flux x squared times
cosine, against its analytic divergence at the cell center. -/
def cartDivErr (n : ℕ) (i : ℕ) : ℝ :=
  fvDivCartesian n (fun x => x ^ 2 * Real.cos x) i -
    meshNode n i * (2 * Real.cos (meshNode n i) - meshNode n i * Real.sin (meshNode n i))

/-- Cell error of the spherical divergence of the flux r times sine r,
against its analytic divergence at the cell center. -/
def sphDivLinErr (n : ℕ) (i : ℕ) : ℝ :=
  fvDivSpherical n (fun r => r * Real.sin r) i -
    (3 * Real.sin (meshNode n i) + meshNode n i * Real.cos (meshNode n i))

/-- Cell error of the spherical divergence of the flux r squared times sine
r, against its analytic divergence at the cell center. -/
def sphDivSqErr (n : ℕ) (i : ℕ) : ℝ :=
  fvDivSpherical n (fun r => r ^ 2 * Real.sin r) i -
    (4 * meshNode n i * Real.sin (meshNode n i) +
      meshNode n i ^ 2 * Real.cos (meshNode n i))

/-- Maximum-norm of the cell errors of the spherical divergence of r times
sine r over the n-cell mesh. -/
def sphDivLinErrNorm (n : ℕ) : ℝ :=
  if h : n = 0 then 0
  else (Finset.range n).sup' (Finset.nonempty_range_iff.mpr h)
    (fun i => |sphDivLinErr n i|)

/-- Modelled from the spec: the flattened edge-flux vector of the
product-domain layout, in which each primary-domain position j carries a
copy of the radial edge values scaled by the position weight c j (a
Kronecker product of the weight vector with the radial edge vector). -/
def p2dEdgeFlux (n : ℕ) (c : ℕ → ℝ) (flux : ℝ → ℝ) (k : ℕ) : ℝ :=
  c (k / (n + 1)) * flux (meshEdge n (k % (n + 1)))

/-- Modelled from the spec: the product-domain spherical divergence, the
one-dimensional radial operator built once and replicated blockwise over
the flattened layout; flat cell k lives at position k / n and radial cell
k % n and reads the two adjacent entries of its position block of the
flattened edge vector. -/
def p2dDivSpherical (n : ℕ) (fluxVec : ℕ → ℝ) (k : ℕ) : ℝ :=
  (meshEdge n (k % n + 1) ^ 2 * fluxVec (k / n * (n + 1) + k % n + 1) -
      meshEdge n (k % n) ^ 2 * fluxVec (k / n * (n + 1) + k % n)) /
    ((meshEdge n (k % n + 1) ^ 3 - meshEdge n (k % n) ^ 3) / 3)

/-- The analytic spherical divergence of the flux r squared times sine r. -/
def sphDivSqExact (r : ℝ) : ℝ := 4 * r * Real.sin r + r ^ 2 * Real.cos r

end

lemma lookupVar_map_self (f : String → PExpr) (l : List String) (d : String)
    (hd : d ∈ l) : lookupVar (l.map (fun x => (x, f x))) d = some (f d) := by
  induction l with
  | nil => cases hd
  | cons a l ih =>
    by_cases h : d = a
    · subst h
      simp [lookupVar]
    · rcases List.mem_cons.mp hd with h' | h'
      · exact absurd h' h
      · simpa [lookupVar, h] using ih h'

/-- C10: the default parameter set is Marquis2019 if and only if the
whole-cell domain list is the canonical three-domain list, and Xu2019 for
every other value. -/
theorem claim10_default_parameter_values (wcd : List String) :
    (defaultParameterValues wcd = "Marquis2019" ↔
      wcd = ["negative electrode", "separator", "positive electrode"]) ∧
    (wcd ≠ ["negative electrode", "separator", "positive electrode"] →
      defaultParameterValues wcd = "Xu2019") := by
  unfold defaultParameterValues
  by_cases h : wcd = ["negative electrode", "separator", "positive electrode"]
  · simp [h]
  · rw [if_neg h]
    refine ⟨⟨fun hx => absurd hx (by decide), fun hx => absurd hx h⟩, fun _ => rfl⟩

theorem claim10_witness :
    defaultParameterValues ["separator", "positive electrode"] = "Xu2019" :=
  (claim10_default_parameter_values ["separator", "positive electrode"]).2 (by decide)

/-- C7: the constant porosity submodel implements the full submodel
contract, and its events phase leaves every equation, boundary-condition and
event collection unchanged for every input variable mapping. -/
theorem claim7_set_events_noop (s : SubmodelEquations) (v : VarMap) :
    constantPorositySubmodel.setEvents s v = s ∧
    (constantPorositySubmodel.setEvents s v).events = s.events ∧
    (constantPorositySubmodel.setEvents s v).rhs = s.rhs ∧
    (constantPorositySubmodel.setEvents s v).algebraic = s.algebraic ∧
    (constantPorositySubmodel.setEvents s v).boundaryConditions = s.boundaryConditions :=
  ⟨rfl, rfl, rfl, rfl, rfl⟩

/-- C6: with both porosity-change options false the porosity submodel
selected is the Constant variant; its porosity-change value for every
whole-cell domain is the full broadcast of zero over that domain, and its
porosity value for every whole-cell domain is the initial-porosity
parameter of that electrode. -/
theorem claim6_constant_porosity (wcd : List String) (d : String) (hd : d ∈ wcd) :
    setPorositySubmodel ("false") ("false") = some ("Constant") ∧
    lookupVar (constantPorosityDepsdtDict wcd) d =
      some (PExpr.fullBroadcast (PExpr.scalar 0) d ("current collector")) ∧
    lookupVar (constantPorosityEpsDict wcd) d =
      some (PExpr.param (firstWord d ++ " epsilon_init")) := by
  refine ⟨rfl, ?_, ?_⟩
  · exact lookupVar_map_self
      (fun x => PExpr.fullBroadcast (PExpr.scalar 0) x ("current collector")) wcd d hd
  · exact lookupVar_map_self
      (fun x => PExpr.param (firstWord x ++ " epsilon_init")) wcd d hd

theorem claim6_witness :
    setPorositySubmodel ("false") ("false") = some ("Constant") ∧
    lookupVar
      (constantPorosityDepsdtDict
        ["negative electrode", "separator", "positive electrode"])
      ("separator") =
      some (PExpr.fullBroadcast (PExpr.scalar 0) ("separator") ("current collector")) ∧
    lookupVar
      (constantPorosityEpsDict
        ["negative electrode", "separator", "positive electrode"])
      ("separator") =
      some (PExpr.param (firstWord ("separator") ++ " epsilon_init")) :=
  claim6_constant_porosity
    ["negative electrode", "separator", "positive electrode"] ("separator") (by decide)

/-- C8: for every options configuration exactly one sei submodel is
registered; a sei-on-cracks submodel is registered if and only if the
negative electrode type is not planar, and that submodel is the
zero-contribution NoSEI variant exactly when the SEI option is none or
constant or the SEI-on-cracks option is false. -/
theorem claim8_sei_registration (o : SeiOptions) :
    ((setSeiSubmodel o).filter (fun p => p.1 == "sei")).length = 1 ∧
    ((∃ s, ("sei on cracks", s) ∈ setSeiSubmodel o) ↔
      o.electrodeTypeNegative ≠ "planar") ∧
    (∀ s, ("sei on cracks", s) ∈ setSeiSubmodel o →
      (s = SeiSubmodel.noSEI true ↔
        (o.sei = "none" ∨ o.sei = "constant" ∨ o.seiOnCracks = "false"))) := by
  by_cases hp : o.electrodeTypeNegative = "planar"
  · have hloc : seiReactionLoc o = "interface" := by
      unfold seiReactionLoc
      rw [if_pos hp]
    refine ⟨?_, ?_, ?_⟩
    · simp [setSeiSubmodel, hloc]
    · simp [setSeiSubmodel, hloc, hp]
    · intro s hs
      simp [setSeiSubmodel, hloc] at hs
  · have hloc : seiReactionLoc o ≠ "interface" := by
      unfold seiReactionLoc
      rw [if_neg hp]
      by_cases hx : o.xAverageSideReactions = "true"
      · rw [if_pos hx]
        decide
      · rw [if_neg hx]
        decide
    refine ⟨?_, ?_, ?_⟩
    · simp [setSeiSubmodel, hloc]
    · simp [setSeiSubmodel, hloc, hp]
    · intro s hs
      simp [setSeiSubmodel, hloc] at hs
      by_cases hc : o.sei = "none" ∨ o.sei = "constant" ∨ o.seiOnCracks = "false"
      · rw [if_pos hc] at hs
        subst hs
        simp [hc]
      · rw [if_neg hc] at hs
        subst hs
        simp [hc]

theorem claim8_witness :
    SeiSubmodel.noSEI true = SeiSubmodel.noSEI true ↔
      (SeiOptions.mk ("porous") ("false") ("none") ("false")).sei = "none" ∨
      (SeiOptions.mk ("porous") ("false") ("none") ("false")).sei = "constant" ∨
      (SeiOptions.mk ("porous") ("false") ("none") ("false")).seiOnCracks = "false" :=
  (claim8_sei_registration (SeiOptions.mk ("porous") ("false") ("none") ("false"))).2.2
    (SeiSubmodel.noSEI true) (by decide)

lemma assembleCore_ok (vs : List VarDecl) (es : List ModelEquation)
    (hnd : (vs.map VarDecl.name).Nodup) (h1 : ∀ v ∈ vs, matchCount es v = 1) :
    assembleCore vs es = Except.ok (vs, es) := by
  unfold assembleCore
  rw [if_neg (by simpa using hnd), if_neg, if_neg]
  · intro hany
    rcases List.any_eq_true.mp hany with ⟨v, hv, hlt⟩
    rw [h1 v hv] at hlt
    exact absurd (of_decide_eq_true hlt) (by omega)
  · intro hany
    rcases List.any_eq_true.mp hany with ⟨v, hv, hz⟩
    rw [h1 v hv] at hz
    exact absurd hz (by decide)

lemma assembleCore_removed_eqn (vs : List VarDecl) (A B : List ModelEquation)
    (e : ModelEquation) (v : VarDecl) (hnd : (vs.map VarDecl.name).Nodup)
    (h1 : ∀ w ∈ vs, matchCount (A ++ e :: B) w = 1) (hv : v ∈ vs)
    (hm : eqnMatches v e = true) :
    assembleCore vs (A ++ B) = Except.error AssemblyError.underdeterminedError := by
  have hc : matchCount (A ++ B) v = 0 := by
    have h := h1 v hv
    unfold matchCount at h ⊢
    rw [List.filter_append] at h ⊢
    rw [List.filter_cons, if_pos hm] at h
    simp only [List.length_append, List.length_cons] at h ⊢
    omega
  unfold assembleCore
  rw [if_neg (by simpa using hnd), if_pos]
  exact List.any_eq_true.mpr ⟨v, hv, by simp [hc]⟩

lemma two_mem_not_nodup {α : Type} (L₁ L₂ L₃ L₄ L₅ : List α) (a : α)
    (h2 : a ∈ L₂) (h4 : a ∈ L₄) :
    ¬ (L₁ ++ (L₂ ++ (L₃ ++ (L₄ ++ L₅)))).Nodup := by
  intro h
  have h' := h.of_append_right
  rcases List.nodup_append.mp h' with ⟨-, -, hdisj⟩
  exact hdisj h2 (List.mem_append.mpr (Or.inr (List.mem_append.mpr (Or.inl h4))))

/-- C5: assembly of the composite-capacitance registry succeeds with
capacitance enabled or disabled; more generally any registry in which every
declared variable has exactly one equation in a matching domain assembles
successfully; removing one matching equation from such an equation set
makes assembly fail with the underdetermined error; and declaring a
variable of the same name in two submodels makes assembly fail with the
model error. -/
theorem claim5_composition_well_posedness :
    (∀ b : Bool, assemble (compositeCapacitanceRegistry b) =
      Except.ok (registryDecls (compositeCapacitanceRegistry b),
        registryEqns (compositeCapacitanceRegistry b))) ∧
    (∀ reg : SubmodelRegistry, wellPosedRegistry reg →
      assemble reg = Except.ok (registryDecls reg, registryEqns reg)) ∧
    (∀ (vs : List VarDecl) (A B : List ModelEquation) (e : ModelEquation) (v : VarDecl),
      (vs.map VarDecl.name).Nodup → (∀ w ∈ vs, matchCount (A ++ e :: B) w = 1) →
      v ∈ vs → eqnMatches v e = true →
      assembleCore vs (A ++ B) = Except.error AssemblyError.underdeterminedError) ∧
    (∀ (reg₁ reg₂ reg₃ : SubmodelRegistry) (n₁ n₂ : String) (s₁ s₂ : PSubmodel)
      (v w : VarDecl), v ∈ s₁.decls → w ∈ s₂.decls → w.name = v.name →
      assemble (reg₁ ++ (n₁, s₁) :: reg₂ ++ (n₂, s₂) :: reg₃) =
        Except.error AssemblyError.modelError) := by
  refine ⟨?_, ?_, assembleCore_removed_eqn, ?_⟩
  · intro b
    cases b <;> rfl
  · intro reg hwp
    exact assembleCore_ok _ _ hwp.1 hwp.2
  · intro reg₁ reg₂ reg₃ n₁ n₂ s₁ s₂ v w hv hw hname
    have hdecls : registryDecls (reg₁ ++ (n₁, s₁) :: reg₂ ++ (n₂, s₂) :: reg₃) =
        registryDecls reg₁ ++ (s₁.decls ++ (registryDecls reg₂ ++
          (s₂.decls ++ registryDecls reg₃))) := by
      simp [registryDecls]
    have hnodup : ¬ ((registryDecls (reg₁ ++ (n₁, s₁) :: reg₂ ++ (n₂, s₂) :: reg₃)).map
        VarDecl.name).Nodup := by
      rw [hdecls]
      simp only [List.map_append]
      exact two_mem_not_nodup _ _ _ _ _ v.name
        (List.mem_map.mpr ⟨v, hv, rfl⟩) (List.mem_map.mpr ⟨w, hw, hname⟩)
    unfold assemble assembleCore
    rw [if_pos hnodup]

theorem claim5_witness :
    assemble (compositeCapacitanceRegistry true) =
      Except.ok (registryDecls (compositeCapacitanceRegistry true),
        registryEqns (compositeCapacitanceRegistry true)) ∧
    assemble (compositeCapacitanceRegistry false) =
      Except.ok (registryDecls (compositeCapacitanceRegistry false),
        registryEqns (compositeCapacitanceRegistry false)) ∧
    assembleCore [VarDecl.mk ("Porosity") ("whole cell") ("rhs")] ([] ++ []) =
      Except.error AssemblyError.underdeterminedError ∧
    assemble ([] ++ ("porosity a",
        PSubmodel.mk [VarDecl.mk ("Porosity") ("whole cell") ("rhs")] []) :: [] ++
        ("porosity b",
        PSubmodel.mk [VarDecl.mk ("Porosity") ("whole cell") ("rhs")] []) :: []) =
      Except.error AssemblyError.modelError :=
  ⟨claim5_composition_well_posedness.1 true,
   claim5_composition_well_posedness.1 false,
   claim5_composition_well_posedness.2.2.1
     [VarDecl.mk ("Porosity") ("whole cell") ("rhs")] [] []
     (ModelEquation.mk ("Porosity") ("whole cell") ("rhs"))
     (VarDecl.mk ("Porosity") ("whole cell") ("rhs"))
     (by decide) (by decide) (by decide) (by decide),
   claim5_composition_well_posedness.2.2.2 [] [] []
     ("porosity a") ("porosity b")
     (PSubmodel.mk [VarDecl.mk ("Porosity") ("whole cell") ("rhs")] [])
     (PSubmodel.mk [VarDecl.mk ("Porosity") ("whole cell") ("rhs")] [])
     (VarDecl.mk ("Porosity") ("whole cell") ("rhs"))
     (VarDecl.mk ("Porosity") ("whole cell") ("rhs"))
     (by decide) (by decide) (by decide)⟩

lemma degradationDomainStep_spec (phases : String → List String) (vars vars' : VarMap)
    (dom : String) (h : degradationDomainStep phases vars dom = some vars') :
    ∃ lam totalLi, vars' =
      insertVar (insertVar (insertVar vars
          ("Total lithium in " ++ lowerString dom ++ " [mol]") totalLi)
        ("LAM_" ++ firstChar (lowerString dom) ++ "e [%]") lam)
      ("Loss of active material in " ++ lowerString dom ++ " [%]") lam := by
  unfold degradationDomainStep at h
  simp only [bind, Option.bind_eq_some, pure, Option.some.injEq] at h
  obtain ⟨phaseLi, hp, cK, hc, nk, hn, h⟩ := h
  exact ⟨_, _, h.symm⟩

/-- C9: after the degradation variables are set on the canonical whole
cell, total lithium is the expression-level sum of the particle and
electrolyte totals, total lithium lost is the initial-inventory parameter
minus total lithium, and the loss-of-inventory and loss-of-active-material
percentages are each stored under their two names as the same
expression. -/
theorem claim9_degradation_identities (phases : String → List String)
    (vars vars' : VarMap)
    (h : setDegradationVariables
      ["Negative electrode", "Separator", "Positive electrode"] phases vars =
      some vars') :
    (∃ p e, lookupVar vars' ("Total lithium in particles [mol]") = some p ∧
      lookupVar vars' ("Total lithium in electrolyte [mol]") = some e ∧
      lookupVar vars' ("Total lithium [mol]") = some (PExpr.add p e) ∧
      lookupVar vars' ("Total lithium lost [mol]") =
        some (PExpr.sub (PExpr.param ("n_Li_init")) (PExpr.add p e))) ∧
    (∃ l, lookupVar vars' ("LLI [%]") = some l ∧
      lookupVar vars' ("Loss of lithium inventory [%]") = some l) ∧
    (∃ lamN, lookupVar vars' ("LAM_ne [%]") = some lamN ∧
      lookupVar vars' ("Loss of active material in negative electrode [%]") =
        some lamN) ∧
    (∃ lamP, lookupVar vars' ("LAM_pe [%]") = some lamP ∧
      lookupVar vars' ("Loss of active material in positive electrode [%]") =
        some lamP) := by
  unfold setDegradationVariables at h
  have hf : (["Negative electrode", "Separator", "Positive electrode"].filter
      (fun d => d ≠ "Separator")) = ["Negative electrode", "Positive electrode"] := by
    decide
  rw [hf] at h
  have hmem : ("Negative electrode" : String) ∈
      (["Negative electrode", "Positive electrode"] : List String) := by decide
  simp only [List.foldlM, List.mapM, List.mapM.loop, List.reverse_cons,
    List.reverse_nil, List.nil_append, List.cons_append, bind, Option.bind_eq_some,
    pure, Option.some.injEq, hmem, if_true] at h
  obtain ⟨v₂, ⟨w₁, hs1, w₂, hs2, rfl⟩, nLiE, hE, perD,
    ⟨x₁, hx1, x₂, hx2, rfl⟩, lliSei, hsei, cr, hcr, pl, hpl, y, rfl, hfin⟩ := h
  obtain ⟨lamN, tN, rfl⟩ := degradationDomainStep_spec phases vars w₁
    ("Negative electrode") hs1
  obtain ⟨lamP, tP, rfl⟩ := degradationDomainStep_spec phases _ w₂
    ("Positive electrode") hs2
  subst hfin
  simp +decide [lookupVar, insertVar] at hE
  simp +decide [lookupVar, insertVar, hE]

theorem claim9_witness :
    ∃ vars',
      setDegradationVariables ["Negative electrode", "Separator", "Positive electrode"]
        (fun _ => ["primary"])
        [("Total lithium in primary phase in negative electrode [mol]",
            PExpr.varNode ("nLiN")),
          ("Total lithium in primary phase in positive electrode [mol]",
            PExpr.varNode ("nLiP")),
          ("Negative electrode capacity [A.h]", PExpr.varNode ("capN")),
          ("Positive electrode capacity [A.h]", PExpr.varNode ("capP")),
          ("Total lithium in electrolyte [mol]", PExpr.varNode ("nLiE")),
          ("Loss of lithium to SEI [mol]", PExpr.varNode ("sei")),
          ("Loss of lithium to SEI on cracks [mol]", PExpr.varNode ("seiCr")),
          ("Loss of lithium to lithium plating [mol]", PExpr.varNode ("pl"))] =
        some vars' ∧
      ((∃ p e, lookupVar vars' ("Total lithium in particles [mol]") = some p ∧
        lookupVar vars' ("Total lithium in electrolyte [mol]") = some e ∧
        lookupVar vars' ("Total lithium [mol]") = some (PExpr.add p e) ∧
        lookupVar vars' ("Total lithium lost [mol]") =
          some (PExpr.sub (PExpr.param ("n_Li_init")) (PExpr.add p e))) ∧
      (∃ l, lookupVar vars' ("LLI [%]") = some l ∧
        lookupVar vars' ("Loss of lithium inventory [%]") = some l) ∧
      (∃ lamN, lookupVar vars' ("LAM_ne [%]") = some lamN ∧
        lookupVar vars' ("Loss of active material in negative electrode [%]") =
          some lamN) ∧
      (∃ lamP, lookupVar vars' ("LAM_pe [%]") = some lamP ∧
        lookupVar vars' ("Loss of active material in positive electrode [%]") =
          some lamP)) :=
  ⟨_, rfl,
    claim9_degradation_identities (fun _ => ["primary"])
      [("Total lithium in primary phase in negative electrode [mol]",
          PExpr.varNode ("nLiN")),
        ("Total lithium in primary phase in positive electrode [mol]",
          PExpr.varNode ("nLiP")),
        ("Negative electrode capacity [A.h]", PExpr.varNode ("capN")),
        ("Positive electrode capacity [A.h]", PExpr.varNode ("capP")),
        ("Total lithium in electrolyte [mol]", PExpr.varNode ("nLiE")),
        ("Loss of lithium to SEI [mol]", PExpr.varNode ("sei")),
        ("Loss of lithium to SEI on cracks [mol]", PExpr.varNode ("seiCr")),
        ("Loss of lithium to lithium plating [mol]", PExpr.varNode ("pl"))]
      _ rfl⟩

lemma sin_sq_sub_sin_sq (a b : ℝ) :
    Real.sin a ^ 2 - Real.sin b ^ 2 = Real.sin (a + b) * Real.sin (a - b) := by
  rw [Real.sin_add, Real.sin_sub]
  nlinarith [Real.sin_sq_add_cos_sq a, Real.sin_sq_add_cos_sq b]

lemma sub_sin_nonneg (x : ℝ) (h0 : 0 ≤ x) : 0 ≤ x - Real.sin x :=
  sub_nonneg.mpr (Real.sin_le h0)

lemma sub_sin_le (x : ℝ) (h0 : 0 ≤ x) (h1 : x ≤ 1) : x - Real.sin x ≤ x ^ 3 / 4 := by
  have hb := Real.sin_bound (x := x) (by rw [abs_of_nonneg h0]; exact h1)
  rw [abs_of_nonneg h0] at hb
  have hb' := abs_le.mp hb
  nlinarith [pow_le_pow_of_le_one h0 h1 (show 3 ≤ 4 by omega)]

lemma one_sub_cos_nonneg (x : ℝ) : 0 ≤ 1 - Real.cos x :=
  sub_nonneg.mpr (Real.cos_le_one x)

lemma one_sub_cos_le (x : ℝ) (h0 : 0 ≤ x) (h1 : x ≤ 1) :
    1 - Real.cos x ≤ 53 / 96 * x ^ 2 := by
  have hb := Real.cos_bound (x := x) (by rw [abs_of_nonneg h0]; exact h1)
  rw [abs_of_nonneg h0] at hb
  have hb' := abs_le.mp hb
  nlinarith [pow_le_pow_of_le_one h0 h1 (show 2 ≤ 4 by omega)]

lemma one_sub_cos_ge (x : ℝ) (h0 : 0 ≤ x) (h1 : x ≤ 1) :
    43 / 96 * x ^ 2 ≤ 1 - Real.cos x := by
  have hb := Real.cos_bound (x := x) (by rw [abs_of_nonneg h0]; exact h1)
  rw [abs_of_nonneg h0] at hb
  have hb' := abs_le.mp hb
  nlinarith [pow_le_pow_of_le_one h0 h1 (show 2 ≤ 4 by omega)]

lemma cos_two_le_neg : Real.cos 2 ≤ -(1 / 9) := by
  have h : Real.cos (2 * 1) = 2 * Real.cos 1 ^ 2 - 1 := Real.cos_two_mul 1
  rw [show (2 : ℝ) * 1 = 2 by norm_num] at h
  nlinarith [Real.cos_one_le, Real.cos_one_pos]

lemma sin_two_nonneg : 0 ≤ Real.sin 2 :=
  Real.sin_nonneg_of_nonneg_of_le_pi (by norm_num)
    (by nlinarith [Real.pi_gt_three])

lemma abs_sin_le_one' (x : ℝ) : |Real.sin x| ≤ 1 :=
  abs_le.mpr ⟨Real.neg_one_le_sin x, Real.sin_le_one x⟩

lemma abs_cos_le_one' (x : ℝ) : |Real.cos x| ≤ 1 :=
  abs_le.mpr ⟨Real.neg_one_le_cos x, Real.cos_le_one x⟩

lemma gradInteriorCell (x d : ℝ) (hd : 0 < d) (hd1 : 2 * d ≤ 1) :
    |(Real.sin (x + d) ^ 2 - Real.sin (x - d) ^ 2) / (2 * d) -
      2 * Real.sin x * Real.cos x| ≤ d ^ 2 := by
  have h2d : (0 : ℝ) < 2 * d := by linarith
  have hiden : Real.sin (x + d) ^ 2 - Real.sin (x - d) ^ 2 =
      Real.sin (2 * x) * Real.sin (2 * d) := by
    rw [sin_sq_sub_sin_sq, show x + d + (x - d) = 2 * x by ring,
      show x + d - (x - d) = 2 * d by ring]
  have hkey : (Real.sin (x + d) ^ 2 - Real.sin (x - d) ^ 2) / (2 * d) -
      2 * Real.sin x * Real.cos x =
      Real.sin (2 * x) * ((Real.sin (2 * d) - 2 * d) / (2 * d)) := by
    rw [hiden, ← Real.sin_two_mul]
    field_simp
    ring
  rw [hkey, abs_mul]
  have hq : |(Real.sin (2 * d) - 2 * d) / (2 * d)| ≤ d ^ 2 := by
    rw [abs_div, abs_of_pos h2d, abs_sub_comm,
      abs_of_nonneg (sub_sin_nonneg _ (le_of_lt h2d)), div_le_iff₀ h2d]
    have hs := sub_sin_le (2 * d) (le_of_lt h2d) hd1
    nlinarith
  calc |Real.sin (2 * x)| * |(Real.sin (2 * d) - 2 * d) / (2 * d)|
      ≤ 1 * d ^ 2 := mul_le_mul (abs_sin_le_one' _) hq (abs_nonneg _) zero_le_one
    _ = d ^ 2 := one_mul _

lemma gradLeftCell (d : ℝ) (hd : 0 < d) (hd1 : 2 * d ≤ 1) :
    43 / 48 * d ≤ Real.sin d ^ 2 / d ∧ Real.sin d ^ 2 / d ≤ 53 / 48 * d := by
  have h2d : (0 : ℝ) < 2 * d := by linarith
  have hsq : Real.sin d ^ 2 = 1 / 2 - Real.cos (2 * d) / 2 :=
    Real.sin_sq_eq_half_sub d
  have hlo := one_sub_cos_ge (2 * d) (le_of_lt h2d) hd1
  have hhi := one_sub_cos_le (2 * d) (le_of_lt h2d) hd1
  constructor
  · rw [le_div_iff₀ hd, hsq]
    nlinarith
  · rw [div_le_iff₀ hd, hsq]
    nlinarith

set_option maxHeartbeats 1000000 in
lemma gradRightCell (d : ℝ) (hd : 0 < d) (hsmall : 2 * d ≤ 1 / 18) :
    1 / 50 * (2 * d) ≤
      |(Real.sin 1 ^ 2 - Real.sin (1 - d) ^ 2) / d - 2 * Real.sin 1 * Real.cos 1| ∧
    |(Real.sin 1 ^ 2 - Real.sin (1 - d) ^ 2) / d - 2 * Real.sin 1 * Real.cos 1| ≤
      2 * d := by
  have h2d : (0 : ℝ) < 2 * d := by linarith
  have hd1 : 2 * d ≤ 1 := by linarith
  have key : (Real.sin 1 ^ 2 - Real.sin (1 - d) ^ 2) / d - 2 * Real.sin 1 * Real.cos 1 =
      Real.sin 2 * ((Real.sin (2 * d) - 2 * d) / (2 * d)) -
        (- Real.cos 2) * ((1 - Real.cos (2 * d)) / (2 * d)) * (-1) := by
    rw [sin_sq_sub_sin_sq, show (1 : ℝ) + (1 - d) = 2 - d by ring,
      show (1 : ℝ) - (1 - d) = d by ring, Real.sin_sub,
      show 2 * Real.sin 1 * Real.cos 1 = Real.sin 2 by
        rw [← Real.sin_two_mul]; norm_num,
      Real.sin_two_mul d,
      show Real.cos (2 * d) = 1 - 2 * Real.sin d ^ 2 by
        have h := Real.sin_sq_eq_half_sub d; linarith]
    field_simp
    ring
  have hs2pos := sin_two_nonneg
  have hs2le : Real.sin 2 ≤ 1 := Real.sin_le_one 2
  have hsub0 := sub_sin_nonneg (2 * d) (le_of_lt h2d)
  have hsuble := sub_sin_le (2 * d) (le_of_lt h2d) hd1
  have hc0 := one_sub_cos_nonneg (2 * d)
  have hclo := one_sub_cos_ge (2 * d) (le_of_lt h2d) hd1
  have hchi := one_sub_cos_le (2 * d) (le_of_lt h2d) hd1
  have hcos2 := cos_two_le_neg
  have hcos2' : -1 ≤ Real.cos 2 := Real.neg_one_le_cos 2
  have hq1 : -(d ^ 2) ≤ (Real.sin (2 * d) - 2 * d) / (2 * d) := by
    rw [le_div_iff₀ h2d]
    nlinarith
  have hq2 : (Real.sin (2 * d) - 2 * d) / (2 * d) ≤ 0 := by
    rw [div_le_iff₀ h2d]
    nlinarith
  have hp1 : 43 / 48 * d ≤ (1 - Real.cos (2 * d)) / (2 * d) := by
    rw [le_div_iff₀ h2d]
    nlinarith
  have hp2 : (1 - Real.cos (2 * d)) / (2 * d) ≤ 53 / 48 * d := by
    rw [div_le_iff₀ h2d]
    nlinarith
  have hp0 : 0 ≤ (1 - Real.cos (2 * d)) / (2 * d) := by positivity
  set q := (Real.sin (2 * d) - 2 * d) / (2 * d)
  set p := (1 - Real.cos (2 * d)) / (2 * d)
  have herr : (Real.sin 1 ^ 2 - Real.sin (1 - d) ^ 2) / d - 2 * Real.sin 1 * Real.cos 1 =
      Real.sin 2 * q + (- Real.cos 2) * p := by
    rw [key]; ring
  have hlo : 1 / 50 * (2 * d) ≤ Real.sin 2 * q + (- Real.cos 2) * p := by
    nlinarith [mul_nonneg (sub_nonneg.mpr hs2le) (neg_nonneg.mpr hq2),
      mul_nonneg (show (0 : ℝ) ≤ - Real.cos 2 - 1 / 9 by linarith) (le_trans hp0 le_rfl),
      mul_nonneg (show (0 : ℝ) ≤ - Real.cos 2 - 1 / 9 by linarith) hp0]
  have hhi : Real.sin 2 * q + (- Real.cos 2) * p ≤ 2 * d := by
    nlinarith [mul_nonneg hs2pos (neg_nonneg.mpr hq2),
      mul_nonneg (show (0 : ℝ) ≤ 1 + Real.cos 2 by linarith) hp0]
  rw [herr]
  constructor
  · exact le_trans hlo (le_abs_self _)
  · rw [abs_le]
    refine ⟨?_, hhi⟩
    nlinarith [mul_nonneg (sub_nonneg.mpr hs2le) (neg_nonneg.mpr hq2),
      mul_nonneg (show (0 : ℝ) ≤ - Real.cos 2 by linarith) hp0]

lemma gradApproxErr_interior (N i : ℕ) (hN : 1 ≤ N) (hi1 : 1 ≤ i) (hiN : i < N) :
    |gradApproxErr N i| ≤ (1 / (2 * (N : ℝ))) ^ 2 := by
  have hNpos : (0 : ℝ) < N := by exact_mod_cast hN
  set d : ℝ := 1 / (2 * N) with hddef
  have hd : 0 < d := by rw [hddef]; positivity
  have hd1 : 2 * d ≤ 1 := by
    rw [hddef]
    rw [show 2 * (1 / (2 * (N : ℝ))) = 1 / N by field_simp]
    rw [div_le_one hNpos]
    exact_mod_cast hN
  have hne0 : i ≠ 0 := by omega
  have hnen : i ≠ N := by omega
  unfold gradApproxErr fvGradDirichlet gradInputField gradExact
  rw [if_neg hne0, if_neg hnen]
  have hnode : meshNode N i = meshEdge N i + d := by
    unfold meshNode meshEdge
    rw [hddef]
    field_simp
    ring
  have hnode' : meshNode N (i - 1) = meshEdge N i - d := by
    unfold meshNode meshEdge
    rw [hddef, Nat.cast_sub hi1]
    field_simp
    ring
  rw [hnode, hnode', show meshEdge N i + d - (meshEdge N i - d) = 2 * d by ring]
  exact gradInteriorCell (meshEdge N i) d hd hd1

lemma gradApproxErr_left (N : ℕ) (hN : 1 ≤ N) :
    43 / 48 * (1 / (2 * (N : ℝ))) ≤ |gradApproxErr N 0| ∧
    |gradApproxErr N 0| ≤ 53 / 48 * (1 / (2 * (N : ℝ))) := by
  have hNpos : (0 : ℝ) < N := by exact_mod_cast hN
  set d : ℝ := 1 / (2 * N) with hddef
  have hd : 0 < d := by rw [hddef]; positivity
  have hd1 : 2 * d ≤ 1 := by
    rw [hddef, show 2 * (1 / (2 * (N : ℝ))) = 1 / N by field_simp, div_le_one hNpos]
    exact_mod_cast hN
  have herr : gradApproxErr N 0 = Real.sin d ^ 2 / d := by
    unfold gradApproxErr fvGradDirichlet gradInputField gradExact
    rw [if_pos rfl]
    have h0 : meshEdge N 0 = 0 := by
      unfold meshEdge
      norm_num
    have h1 : meshNode N 0 = d := by
      unfold meshNode
      rw [hddef]
      norm_num
    rw [h0, h1, Real.sin_zero]
    ring
  have hb := gradLeftCell d hd hd1
  have hpos : 0 ≤ Real.sin d ^ 2 / d := by positivity
  rw [herr, abs_of_nonneg hpos]
  exact hb

lemma gradApproxErr_right (N : ℕ) (hN : 18 ≤ N) :
    1 / 50 * (2 * (1 / (2 * (N : ℝ)))) ≤ |gradApproxErr N N| ∧
    |gradApproxErr N N| ≤ 2 * (1 / (2 * (N : ℝ))) := by
  have hNpos : (0 : ℝ) < N := by
    have : (0 : ℕ) < N := by omega
    exact_mod_cast this
  set d : ℝ := 1 / (2 * N) with hddef
  have hd : 0 < d := by rw [hddef]; positivity
  have hN0 : N ≠ 0 := by omega
  have hsmall : 2 * d ≤ 1 / 18 := by
    rw [hddef, show 2 * (1 / (2 * (N : ℝ))) = 1 / N by field_simp]
    rw [div_le_div_iff₀ hNpos (by norm_num)]
    have : (18 : ℝ) ≤ N := by exact_mod_cast hN
    linarith
  have herr : gradApproxErr N N =
      (Real.sin 1 ^ 2 - Real.sin (1 - d) ^ 2) / d - 2 * Real.sin 1 * Real.cos 1 := by
    unfold gradApproxErr fvGradDirichlet gradInputField gradExact
    rw [if_neg hN0, if_pos rfl]
    have h1 : meshEdge N N = 1 := by
      unfold meshEdge
      field_simp
    have h2 : meshNode N (N - 1) = 1 - d := by
      unfold meshNode
      rw [hddef, Nat.cast_sub (by omega : 1 ≤ N)]
      field_simp
      ring
    rw [h1, h2, show (1 : ℝ) - (1 - d) = d by ring]
  rw [herr]
  exact gradRightCell d hd hsmall

/-- C1: on the three-domain whole-cell mesh with n uniform cells per domain,
the field sine squared and Dirichlet values 0 and sine squared of one, the
finite-volume gradient error at every interior face is bounded by a
constant times the square of the mesh width (quadratic convergence), while
the error at each of the two Dirichlet boundary faces is bounded above and
below by positive constants times the mesh width itself (linear
convergence, and not quadratic). -/
theorem claim1_gradient_convergence (n : ℕ) (hn : 6 ≤ n) :
    (∀ i, 1 ≤ i → i < 3 * n → |gradApproxErr (3 * n) i| ≤
      1 / (4 * (3 * (n : ℝ)) ^ 2)) ∧
    (1 / (3 * (3 * (n : ℝ))) ≤ |gradApproxErr (3 * n) 0| ∧
      |gradApproxErr (3 * n) 0| ≤ 1 / (3 * (n : ℝ))) ∧
    (1 / (50 * (3 * (n : ℝ))) ≤ |gradApproxErr (3 * n) (3 * n)| ∧
      |gradApproxErr (3 * n) (3 * n)| ≤ 1 / (3 * (n : ℝ))) := by
  have hN : 1 ≤ 3 * n := by omega
  have hcast : ((3 * n : ℕ) : ℝ) = 3 * (n : ℝ) := by push_cast; ring
  have hnpos : (0 : ℝ) < 3 * (n : ℝ) := by
    have : (0 : ℕ) < n := by omega
    have : (0 : ℝ) < n := by exact_mod_cast this
    linarith
  refine ⟨?_, ?_, ?_⟩
  · intro i hi1 hiN
    have h := gradApproxErr_interior (3 * n) i hN hi1 hiN
    rw [hcast] at h
    calc |gradApproxErr (3 * n) i| ≤ (1 / (2 * (3 * (n : ℝ)))) ^ 2 := h
      _ = 1 / (4 * (3 * (n : ℝ)) ^ 2) := by field_simp; ring
  · have h := gradApproxErr_left (3 * n) hN
    rw [hcast] at h
    constructor
    · refine le_trans ?_ h.1
      rw [show (43 : ℝ) / 48 * (1 / (2 * (3 * (n : ℝ)))) =
        43 / 32 * (1 / (3 * (3 * (n : ℝ)))) by ring]
      have hp : (0 : ℝ) < 1 / (3 * (3 * (n : ℝ))) := by positivity
      nlinarith
    · refine le_trans h.2 ?_
      rw [show (53 : ℝ) / 48 * (1 / (2 * (3 * (n : ℝ)))) =
        53 / 96 * (1 / (3 * (n : ℝ))) by ring]
      have : (0 : ℝ) < 1 / (3 * (n : ℝ)) := by positivity
      nlinarith
  · have h := gradApproxErr_right (3 * n) (by omega)
    rw [hcast] at h
    constructor
    · refine le_trans ?_ h.1
      rw [show (1 : ℝ) / 50 * (2 * (1 / (2 * (3 * (n : ℝ))))) =
        1 / 50 * (1 / (3 * (n : ℝ))) by ring]
      rw [show (1 : ℝ) / (50 * (3 * (n : ℝ))) = 1 / 50 * (1 / (3 * (n : ℝ))) by
        field_simp]
    · refine le_trans h.2 ?_
      rw [show (2 : ℝ) * (1 / (2 * (3 * (n : ℝ)))) = 1 / (3 * (n : ℝ)) by ring]

theorem claim1_witness :
    |gradApproxErr (3 * 6) 1| ≤ 1 / (4 * (3 * ((6 : ℕ) : ℝ)) ^ 2) ∧
    1 / (3 * (3 * ((6 : ℕ) : ℝ))) ≤ |gradApproxErr (3 * 6) 0| ∧
    1 / (50 * (3 * ((6 : ℕ) : ℝ))) ≤ |gradApproxErr (3 * 6) (3 * 6)| :=
  ⟨(claim1_gradient_convergence 6 (by decide)).1 1 (by decide) (by decide),
   (claim1_gradient_convergence 6 (by decide)).2.1.1,
   (claim1_gradient_convergence 6 (by decide)).2.2.1⟩

lemma cartDivCell (x d : ℝ) (hd : 0 < d) (hd2 : d ≤ 1 / 2) (hx0 : 0 ≤ x)
    (hx1 : x ≤ 1) :
    |((x + d) ^ 2 * Real.cos (x + d) - (x - d) ^ 2 * Real.cos (x - d)) / (2 * d) -
      x * (2 * Real.cos x - x * Real.sin x)| ≤ 3 * d ^ 2 := by
  have h2d : (0 : ℝ) < 2 * d := by linarith
  have hdle1 : d ≤ 1 := by linarith
  have key : ((x + d) ^ 2 * Real.cos (x + d) - (x - d) ^ 2 * Real.cos (x - d)) /
      (2 * d) - x * (2 * Real.cos x - x * Real.sin x) =
      (-(2 * d ^ 3 * Real.sin x) + 2 * (x ^ 2 + d ^ 2) * Real.sin x * (d - Real.sin d)
        - 4 * x * d * Real.cos x * (1 - Real.cos d)) / (2 * d) := by
    rw [Real.cos_add, Real.cos_sub]
    field_simp
    ring
  rw [key, abs_div, abs_of_pos h2d, div_le_iff₀ h2d]
  have hv0 := sub_sin_nonneg d hd.le
  have hv := sub_sin_le d hd.le hdle1
  have hu0 := one_sub_cos_nonneg d
  have hu := one_sub_cos_le d hd.le hdle1
  have hs1 : -1 ≤ Real.sin x := Real.neg_one_le_sin x
  have hs2 : Real.sin x ≤ 1 := Real.sin_le_one x
  have hc1 : -1 ≤ Real.cos x := Real.neg_one_le_cos x
  have hc2 : Real.cos x ≤ 1 := Real.cos_le_one x
  have hA : (x ^ 2 + d ^ 2) * (d - Real.sin d) ≤ d ^ 3 / 2 := by
    nlinarith [mul_nonneg (show (0 : ℝ) ≤ 2 - x ^ 2 - d ^ 2 by nlinarith) hv0]
  have hB : x * d * (1 - Real.cos d) ≤ 53 / 96 * d ^ 3 := by
    nlinarith [mul_nonneg (mul_nonneg (show (0 : ℝ) ≤ 1 - x by linarith) hd.le) hu0,
      mul_le_mul_of_nonneg_left hu hd.le]
  have hAB0 : 0 ≤ (x ^ 2 + d ^ 2) * (d - Real.sin d) := by positivity
  have hB0 : 0 ≤ x * d * (1 - Real.cos d) := by positivity
  rw [abs_le]
  constructor
  · nlinarith [mul_nonneg (show (0 : ℝ) ≤ d ^ 3 by positivity)
        (show (0 : ℝ) ≤ 1 - Real.sin x by linarith),
      mul_nonneg hAB0 (show (0 : ℝ) ≤ 1 + Real.sin x by linarith),
      mul_nonneg hB0 (show (0 : ℝ) ≤ 1 - Real.cos x by linarith)]
  · nlinarith [mul_nonneg (show (0 : ℝ) ≤ d ^ 3 by positivity)
        (show (0 : ℝ) ≤ 1 + Real.sin x by linarith),
      mul_nonneg hAB0 (show (0 : ℝ) ≤ 1 - Real.sin x by linarith),
      mul_nonneg hB0 (show (0 : ℝ) ≤ 1 + Real.cos x by linarith)]

set_option maxHeartbeats 2000000 in
lemma sphDivCellSq (r d : ℝ) (hd : 0 < d) (hd2 : d ≤ 1 / 2) (hdr : d ≤ r)
    (hr1 : r ≤ 1) :
    |((r + d) ^ 2 * ((r + d) ^ 2 * Real.sin (r + d)) -
        (r - d) ^ 2 * ((r - d) ^ 2 * Real.sin (r - d))) /
      (((r + d) ^ 3 - (r - d) ^ 3) / 3) -
      (4 * r * Real.sin r + r ^ 2 * Real.cos r)| ≤ 15 * d ^ 2 := by
  have hr0 : (0 : ℝ) < r := lt_of_lt_of_le hd hdr
  have hD : (r + d) ^ 3 - (r - d) ^ 3 = 2 * d * (3 * r ^ 2 + d ^ 2) := by ring
  have hDpos : (0 : ℝ) < 2 * d * (3 * r ^ 2 + d ^ 2) := by positivity
  have hdle1 : d ≤ 1 := by linarith
  have key : ((r + d) ^ 2 * ((r + d) ^ 2 * Real.sin (r + d)) -
        (r - d) ^ 2 * ((r - d) ^ 2 * Real.sin (r - d))) /
      (((r + d) ^ 3 - (r - d) ^ 3) / 3) -
      (4 * r * Real.sin r + r ^ 2 * Real.cos r) =
      (16 * r * d ^ 3 * Real.sin r +
        (34 * r ^ 2 * d ^ 3 + 6 * d ^ 5) * Real.cos r -
        24 * r * d * (r ^ 2 + d ^ 2) * Real.sin r * (1 - Real.cos d) -
        6 * (d - Real.sin d) * (r ^ 4 + 6 * r ^ 2 * d ^ 2 + d ^ 4) * Real.cos r) /
      (2 * d * (3 * r ^ 2 + d ^ 2)) := by
    rw [Real.sin_add, Real.sin_sub, hD]
    field_simp
    ring
  rw [key, abs_div, abs_of_pos hDpos, div_le_iff₀ hDpos]
  have hs0 : 0 ≤ Real.sin r :=
    Real.sin_nonneg_of_nonneg_of_le_pi hr0.le (by nlinarith [Real.pi_gt_three])
  have hsr : Real.sin r ≤ r := Real.sin_le hr0.le
  have hc1 : -1 ≤ Real.cos r := Real.neg_one_le_cos r
  have hc2 : Real.cos r ≤ 1 := Real.cos_le_one r
  have hu0 := one_sub_cos_nonneg d
  have hu := one_sub_cos_le d hd.le hdle1
  have hv0 := sub_sin_nonneg d hd.le
  have hv := sub_sin_le d hd.le hdle1
  -- first term: between 0 and 16 r^2 d^3
  have hT1a : 0 ≤ 16 * r * d ^ 3 * Real.sin r := by positivity
  have hT1b : 16 * r * d ^ 3 * Real.sin r ≤ 16 * r ^ 2 * d ^ 3 := by
    nlinarith [mul_le_mul_of_nonneg_left hsr
      (show (0 : ℝ) ≤ 16 * r * d ^ 3 by positivity)]
  -- third term: between 0 and 53/2 r^2 d^3
  have hsu : Real.sin r * (1 - Real.cos d) ≤ r * (53 / 96 * d ^ 2) :=
    mul_le_mul hsr hu hu0 hr0.le
  have hT3a : 0 ≤ 24 * r * d * (r ^ 2 + d ^ 2) * Real.sin r * (1 - Real.cos d) := by
    positivity
  have hT3b : 24 * r * d * (r ^ 2 + d ^ 2) * Real.sin r * (1 - Real.cos d) ≤
      53 / 2 * r ^ 2 * d ^ 3 := by
    have h1 : (0 : ℝ) ≤ 24 * r * d * (r ^ 2 + d ^ 2) := by positivity
    have h2 := mul_le_mul_of_nonneg_left hsu h1
    have h3 : 24 * r * d * (r ^ 2 + d ^ 2) * (r * (53 / 96 * d ^ 2)) ≤
        53 / 2 * r ^ 2 * d ^ 3 := by
      nlinarith [mul_nonneg (show (0 : ℝ) ≤ 2 - r ^ 2 - d ^ 2 by nlinarith)
        (show (0 : ℝ) ≤ r ^ 2 * d ^ 3 by positivity)]
    calc 24 * r * d * (r ^ 2 + d ^ 2) * Real.sin r * (1 - Real.cos d) =
        24 * r * d * (r ^ 2 + d ^ 2) * (Real.sin r * (1 - Real.cos d)) := by ring
      _ ≤ 24 * r * d * (r ^ 2 + d ^ 2) * (r * (53 / 96 * d ^ 2)) := h2
      _ ≤ 53 / 2 * r ^ 2 * d ^ 3 := h3
  -- fourth term magnitude: 6 v P with P bounded by 3 r^2
  have hpoly0 : (0 : ℝ) ≤ r ^ 4 + 6 * r ^ 2 * d ^ 2 + d ^ 4 := by positivity
  have hpoly : r ^ 4 + 6 * r ^ 2 * d ^ 2 + d ^ 4 ≤ 3 * r ^ 2 := by
    nlinarith [mul_nonneg (show (0 : ℝ) ≤ 1 - r ^ 2 by nlinarith) (sq_nonneg r),
      mul_nonneg (mul_nonneg hd.le hd.le)
        (show (0 : ℝ) ≤ r ^ 2 - d ^ 2 by nlinarith)]
  have hT4a : 0 ≤ 6 * (d - Real.sin d) * (r ^ 4 + 6 * r ^ 2 * d ^ 2 + d ^ 4) := by
    have := mul_nonneg hv0 hpoly0
    linarith
  have hT4b : 6 * (d - Real.sin d) * (r ^ 4 + 6 * r ^ 2 * d ^ 2 + d ^ 4) ≤
      5 * r ^ 2 * d ^ 3 := by
    have h1 := mul_le_mul hv hpoly hpoly0 (by positivity : (0 : ℝ) ≤ d ^ 3 / 4)
    nlinarith
  -- second term coefficient
  have hc0 : (0 : ℝ) ≤ 34 * r ^ 2 * d ^ 3 + 6 * d ^ 5 := by positivity
  rw [abs_le]
  constructor
  · nlinarith [mul_nonneg hc0 (show (0 : ℝ) ≤ 1 + Real.cos r by linarith),
      mul_nonneg (mul_nonneg hv0 hpoly0)
        (show (0 : ℝ) ≤ 1 + Real.cos r by linarith),
      mul_nonneg (mul_nonneg hv0 hpoly0)
        (show (0 : ℝ) ≤ 1 - Real.cos r by linarith),
      mul_nonneg (show (0 : ℝ) ≤ d ^ 2 by positivity)
        (show (0 : ℝ) ≤ d ^ 2 * (1 - d) by nlinarith)]
  · nlinarith [mul_nonneg hc0 (show (0 : ℝ) ≤ 1 - Real.cos r by linarith),
      mul_nonneg (mul_nonneg hv0 hpoly0)
        (show (0 : ℝ) ≤ 1 + Real.cos r by linarith),
      mul_nonneg (mul_nonneg hv0 hpoly0)
        (show (0 : ℝ) ≤ 1 - Real.cos r by linarith),
      mul_nonneg (show (0 : ℝ) ≤ d ^ 2 by positivity)
        (show (0 : ℝ) ≤ d ^ 2 * (1 - d) by nlinarith)]

set_option maxHeartbeats 2000000 in
lemma sphDivCellLin (r d : ℝ) (hd : 0 < d) (hd2 : d ≤ 1 / 2) (hdr : d ≤ r)
    (hr1 : r ≤ 1) :
    |((r + d) ^ 2 * ((r + d) * Real.sin (r + d)) -
        (r - d) ^ 2 * ((r - d) * Real.sin (r - d))) /
      (((r + d) ^ 3 - (r - d) ^ 3) / 3) -
      (3 * Real.sin r + r * Real.cos r)| ≤ 5 * d := by
  have hr0 : (0 : ℝ) < r := lt_of_lt_of_le hd hdr
  have hD : (r + d) ^ 3 - (r - d) ^ 3 = 2 * d * (3 * r ^ 2 + d ^ 2) := by ring
  have hDpos : (0 : ℝ) < 2 * d * (3 * r ^ 2 + d ^ 2) := by positivity
  have hdle1 : d ≤ 1 := by linarith
  have key : ((r + d) ^ 2 * ((r + d) * Real.sin (r + d)) -
        (r - d) ^ 2 * ((r - d) * Real.sin (r - d))) /
      (((r + d) ^ 3 - (r - d) ^ 3) / 3) -
      (3 * Real.sin r + r * Real.cos r) =
      (16 * r * d ^ 3 * Real.cos r -
        6 * d * (3 * r ^ 2 + d ^ 2) * Real.sin r * (1 - Real.cos d) -
        6 * r * (r ^ 2 + 3 * d ^ 2) * Real.cos r * (d - Real.sin d)) /
      (2 * d * (3 * r ^ 2 + d ^ 2)) := by
    rw [Real.sin_add, Real.sin_sub, hD]
    field_simp
    ring
  rw [key, abs_div, abs_of_pos hDpos, div_le_iff₀ hDpos]
  have hs0 : 0 ≤ Real.sin r :=
    Real.sin_nonneg_of_nonneg_of_le_pi hr0.le (by nlinarith [Real.pi_gt_three])
  have hsr : Real.sin r ≤ r := Real.sin_le hr0.le
  have hc1 : -1 ≤ Real.cos r := Real.neg_one_le_cos r
  have hc2 : Real.cos r ≤ 1 := Real.cos_le_one r
  have hu0 := one_sub_cos_nonneg d
  have hu := one_sub_cos_le d hd.le hdle1
  have hv0 := sub_sin_nonneg d hd.le
  have hv := sub_sin_le d hd.le hdle1
  have hsu : Real.sin r * (1 - Real.cos d) ≤ r * (53 / 96 * d ^ 2) :=
    mul_le_mul hsr hu hu0 hr0.le
  have hT2a : 0 ≤ 6 * d * (3 * r ^ 2 + d ^ 2) * (Real.sin r * (1 - Real.cos d)) := by
    positivity
  have hT2b : 6 * d * (3 * r ^ 2 + d ^ 2) * (Real.sin r * (1 - Real.cos d)) ≤
      2 * d ^ 2 * (3 * r ^ 2 + d ^ 2) := by
    have h1 : (0 : ℝ) ≤ 6 * d * (3 * r ^ 2 + d ^ 2) := by positivity
    have h2 := mul_le_mul_of_nonneg_left hsu h1
    have h3 : 6 * d * (3 * r ^ 2 + d ^ 2) * (r * (53 / 96 * d ^ 2)) ≤
        2 * d ^ 2 * (3 * r ^ 2 + d ^ 2) := by
      nlinarith [mul_nonneg (show (0 : ℝ) ≤ 2 - 53 / 16 * (r * d) by nlinarith)
        (show (0 : ℝ) ≤ d ^ 2 * (3 * r ^ 2 + d ^ 2) by positivity)]
    linarith
  have hT3a : 0 ≤ 6 * r * (r ^ 2 + 3 * d ^ 2) * (d - Real.sin d) := by positivity
  have hT3b : 6 * r * (r ^ 2 + 3 * d ^ 2) * (d - Real.sin d) ≤
      3 * d ^ 2 * (3 * r ^ 2 + d ^ 2) := by
    have h1 : (0 : ℝ) ≤ 6 * r * (r ^ 2 + 3 * d ^ 2) := by positivity
    have h2 := mul_le_mul_of_nonneg_left hv h1
    have h3 : 6 * r * (r ^ 2 + 3 * d ^ 2) * (d ^ 3 / 4) ≤
        3 * d ^ 2 * (3 * r ^ 2 + d ^ 2) := by
      nlinarith [mul_nonneg (show (0 : ℝ) ≤ 2 - r * d by nlinarith)
        (show (0 : ℝ) ≤ d ^ 2 * (r ^ 2 + 3 * d ^ 2) by positivity),
        mul_nonneg (show (0 : ℝ) ≤ d ^ 2 * d ^ 2 by positivity)
          (show (0 : ℝ) ≤ r ^ 2 - d ^ 2 by nlinarith)]
    linarith
  have hrd3 : (0 : ℝ) ≤ 16 * r * d ^ 3 := by positivity
  rw [abs_le]
  constructor
  · nlinarith [mul_nonneg hrd3 (show (0 : ℝ) ≤ 1 + Real.cos r by linarith),
      mul_nonneg hT3a (show (0 : ℝ) ≤ 1 - Real.cos r by linarith),
      mul_nonneg hT3a (show (0 : ℝ) ≤ 1 + Real.cos r by linarith),
      mul_nonneg (mul_nonneg hd.le hd.le)
        (show (0 : ℝ) ≤ r ^ 2 - d ^ 2 by nlinarith)]
  · nlinarith [mul_nonneg hrd3 (show (0 : ℝ) ≤ 1 - Real.cos r by linarith),
      mul_nonneg hT3a (show (0 : ℝ) ≤ 1 - Real.cos r by linarith),
      mul_nonneg hT3a (show (0 : ℝ) ≤ 1 + Real.cos r by linarith),
      mul_nonneg (mul_nonneg hd.le hd.le)
        (show (0 : ℝ) ≤ r ^ 2 - d ^ 2 by nlinarith)]

lemma sphDivLinFirstCell (d : ℝ) (hd : 0 < d) (hd2 : d ≤ 1 / 2) :
    d / 2 ≤ 3 * Real.sin (2 * d) - (3 * Real.sin d + d * Real.cos d) := by
  have h2d1 : |2 * d| ≤ 1 := by rw [abs_of_pos (by linarith)]; linarith
  have hd1 : |d| ≤ 1 := by rw [abs_of_pos hd]; linarith
  have hb1 := abs_le.mp (Real.sin_bound h2d1)
  have hb2 := abs_le.mp (Real.sin_bound hd1)
  have hb3 := abs_le.mp (Real.cos_bound hd1)
  rw [abs_of_pos (by linarith : (0 : ℝ) < 2 * d)] at hb1
  rw [abs_of_pos hd] at hb2 hb3
  have hp3 : d ^ 3 ≤ d / 4 := by nlinarith
  have hp4 : d ^ 4 ≤ d / 8 := by nlinarith
  have hp5 : d ^ 5 ≤ d / 16 := by nlinarith
  nlinarith

lemma meshCellStructure (n i : ℕ) (hn : 1 ≤ n) (hi : i < n) :
    meshEdge n i = meshNode n i - 1 / (2 * (n : ℝ)) ∧
    meshEdge n (i + 1) = meshNode n i + 1 / (2 * (n : ℝ)) ∧
    1 / (2 * (n : ℝ)) ≤ meshNode n i ∧
    meshNode n i + 1 / (2 * (n : ℝ)) ≤ 1 := by
  have hnpos : (0 : ℝ) < n := by exact_mod_cast hn
  have hipos : ((i : ℝ) + 1) ≤ n := by exact_mod_cast hi
  have hi0 : (0 : ℝ) ≤ i := Nat.cast_nonneg i
  unfold meshEdge meshNode
  refine ⟨by field_simp; ring, by push_cast; field_simp; ring, ?_, ?_⟩
  · rw [div_le_div_iff₀ (by positivity) (by positivity)]
    nlinarith
  · have h1 : (2 * (i : ℝ) + 1) / (2 * n) + 1 / (2 * n) = ((i : ℝ) + 1) / n := by
      field_simp
      ring
    rw [h1, div_le_one hnpos]
    exact hipos

lemma sphDivSqErr_le (n i : ℕ) (hn : 1 ≤ n) (hi : i < n) :
    |sphDivSqErr n i| ≤ 4 / (n : ℝ) ^ 2 := by
  have hnpos : (0 : ℝ) < n := by exact_mod_cast hn
  have hn1 : (1 : ℝ) ≤ n := by exact_mod_cast hn
  obtain ⟨hL, hR, hdr, hr1'⟩ := meshCellStructure n i hn hi
  set d : ℝ := 1 / (2 * (n : ℝ)) with hddef
  set r : ℝ := meshNode n i with hrdef
  have hd : 0 < d := by rw [hddef]; positivity
  have hd2 : d ≤ 1 / 2 := by
    rw [hddef, div_le_div_iff₀ (by positivity) (by norm_num)]
    nlinarith
  have hr1 : r ≤ 1 := by linarith
  have hcell := sphDivCellSq r d hd hd2 hdr hr1
  unfold sphDivSqErr fvDivSpherical
  rw [hL, hR]
  refine le_trans hcell ?_
  rw [show (15 : ℝ) * d ^ 2 = 15 / 4 * (1 / (n : ℝ) ^ 2) by rw [hddef]; field_simp; ring,
    show (4 : ℝ) / (n : ℝ) ^ 2 = 4 * (1 / (n : ℝ) ^ 2) by ring]
  have hp : (0 : ℝ) < 1 / (n : ℝ) ^ 2 := by positivity
  nlinarith

lemma sphDivLinErr_le (n i : ℕ) (hn : 1 ≤ n) (hi : i < n) :
    |sphDivLinErr n i| ≤ 3 / (n : ℝ) := by
  have hnpos : (0 : ℝ) < n := by exact_mod_cast hn
  have hn1 : (1 : ℝ) ≤ n := by exact_mod_cast hn
  obtain ⟨hL, hR, hdr, hr1'⟩ := meshCellStructure n i hn hi
  set d : ℝ := 1 / (2 * (n : ℝ)) with hddef
  set r : ℝ := meshNode n i with hrdef
  have hd : 0 < d := by rw [hddef]; positivity
  have hd2 : d ≤ 1 / 2 := by
    rw [hddef, div_le_div_iff₀ (by positivity) (by norm_num)]
    nlinarith
  have hr1 : r ≤ 1 := by linarith
  have hcell := sphDivCellLin r d hd hd2 hdr hr1
  unfold sphDivLinErr fvDivSpherical
  rw [hL, hR]
  refine le_trans hcell ?_
  rw [show (5 : ℝ) * d = 5 / 2 * (1 / (n : ℝ)) by rw [hddef]; field_simp,
    show (3 : ℝ) / (n : ℝ) = 3 * (1 / (n : ℝ)) by ring]
  have hp : (0 : ℝ) < 1 / (n : ℝ) := by positivity
  nlinarith

lemma cartDivErr_le (n i : ℕ) (hn : 1 ≤ n) (hi : i < n) :
    |cartDivErr n i| ≤ 3 / (4 * (n : ℝ) ^ 2) := by
  have hnpos : (0 : ℝ) < n := by exact_mod_cast hn
  have hn1 : (1 : ℝ) ≤ n := by exact_mod_cast hn
  obtain ⟨hL, hR, hdr, hr1'⟩ := meshCellStructure n i hn hi
  set d : ℝ := 1 / (2 * (n : ℝ)) with hddef
  set x : ℝ := meshNode n i with hxdef
  have hd : 0 < d := by rw [hddef]; positivity
  have hd2 : d ≤ 1 / 2 := by
    rw [hddef, div_le_div_iff₀ (by positivity) (by norm_num)]
    nlinarith
  have hx1 : x ≤ 1 := by linarith
  have hx0 : 0 ≤ x := by linarith
  have hcell := cartDivCell x d hd hd2 hx0 hx1
  unfold cartDivErr fvDivCartesian
  rw [hL, hR, show x + d - (x - d) = 2 * d by ring]
  refine le_trans hcell ?_
  rw [show (3 : ℝ) * d ^ 2 = 3 / 4 * (1 / (n : ℝ) ^ 2) by rw [hddef]; field_simp; ring,
    show (3 : ℝ) / (4 * (n : ℝ) ^ 2) = 3 / 4 * (1 / (n : ℝ) ^ 2) by ring]

lemma sphDivLinErr_first (n : ℕ) (hn : 1 ≤ n) :
    1 / (4 * (n : ℝ)) ≤ sphDivLinErr n 0 := by
  have hnpos : (0 : ℝ) < n := by exact_mod_cast hn
  have hn1 : (1 : ℝ) ≤ n := by exact_mod_cast hn
  set d : ℝ := 1 / (2 * (n : ℝ)) with hddef
  have hd : 0 < d := by rw [hddef]; positivity
  have hd2 : d ≤ 1 / 2 := by
    rw [hddef, div_le_div_iff₀ (by positivity) (by norm_num)]
    nlinarith
  have hkey : sphDivLinErr n 0 =
      3 * Real.sin (2 * d) - (3 * Real.sin d + d * Real.cos d) := by
    unfold sphDivLinErr fvDivSpherical
    have h0 : meshEdge n 0 = 0 := by
      unfold meshEdge
      norm_num
    have h1 : meshEdge n 1 = 2 * d := by
      unfold meshEdge
      rw [hddef]
      push_cast
      field_simp
    have h2 : meshNode n 0 = d := by
      unfold meshNode
      rw [hddef]
      norm_num
    rw [show (0 : ℕ) + 1 = 1 from rfl, h0, h1, h2]
    rw [show (2 * d) ^ 2 * (2 * d * Real.sin (2 * d)) - 0 ^ 2 * (0 * Real.sin 0) =
      8 * d ^ 3 * Real.sin (2 * d) by ring]
    rw [show ((2 * d) ^ 3 - 0 ^ 3) / 3 = 8 * d ^ 3 / 3 by ring]
    rw [show 8 * d ^ 3 * Real.sin (2 * d) / (8 * d ^ 3 / 3) =
      3 * Real.sin (2 * d) by
        rw [div_div_eq_mul_div, div_eq_iff (by positivity : (8 : ℝ) * d ^ 3 ≠ 0)]
        ring]
  rw [hkey, show (1 : ℝ) / (4 * (n : ℝ)) = d / 2 by rw [hddef]; field_simp; ring]
  exact sphDivLinFirstCell d hd hd2

lemma sphDivLinErrNorm_ge_first (n : ℕ) (hn : 1 ≤ n) :
    sphDivLinErr n 0 ≤ sphDivLinErrNorm n := by
  unfold sphDivLinErrNorm
  rw [dif_neg (by omega : ¬ n = 0)]
  refine le_trans (le_abs_self _) ?_
  exact Finset.le_sup' (fun i => |sphDivLinErr n i|)
    (Finset.mem_range.mpr (show 0 < n by omega))

/-- C2 counterexample: for the spherical flux r times sine r, the
maximum-norm error of the finite-volume divergence does not shrink
quadratically: no constant C makes the norm at mesh size n bounded by C
over n squared for all n, because the error at the cell touching the
origin is bounded below by 1 over 4 n. -/
theorem claim2_counterexample :
    ¬ ∃ C : ℝ, ∀ n : ℕ, 1 ≤ n → sphDivLinErrNorm n ≤ C / (n : ℝ) ^ 2 := by
  rintro ⟨C, hC⟩
  set m : ℕ := 4 * Nat.ceil |C| + 4 with hm
  have hm1 : 1 ≤ m := by omega
  have hmR : 4 * |C| + 4 ≤ (m : ℝ) := by
    rw [hm]
    push_cast
    have := Nat.le_ceil |C|
    linarith
  have hmpos : (0 : ℝ) < m := by
    have := abs_nonneg C
    linarith
  have hlow := le_trans (sphDivLinErr_first m hm1) (sphDivLinErrNorm_ge_first m hm1)
  have hcomb : 1 / (4 * (m : ℝ)) ≤ C / (m : ℝ) ^ 2 := le_trans hlow (hC m hm1)
  rw [div_le_div_iff₀ (by positivity) (by positivity)] at hcomb
  nlinarith [le_abs_self C, abs_nonneg C,
    mul_le_mul_of_nonneg_right hmR hmpos.le,
    mul_le_mul_of_nonneg_right (le_abs_self C)
      (show (0 : ℝ) ≤ 4 * m by positivity)]

/-- C2 amended: the Cartesian divergence of the flux x squared times cosine
converges quadratically on the three-domain whole-cell mesh, while the
spherical divergence of the flux r times sine r converges linearly in the
maximum norm (rate at least one, but not two). -/
theorem claim2_divergence_rates (n : ℕ) (hn : 1 ≤ n) :
    (∀ i, i < 3 * n → |cartDivErr (3 * n) i| ≤ 1 / (n : ℝ) ^ 2) ∧
    sphDivLinErrNorm n ≤ 3 / (n : ℝ) := by
  have hnpos : (0 : ℝ) < n := by exact_mod_cast hn
  constructor
  · intro i hi
    have h := cartDivErr_le (3 * n) i (by omega) hi
    have hcast : ((3 * n : ℕ) : ℝ) = 3 * (n : ℝ) := by push_cast; ring
    rw [hcast] at h
    refine le_trans h ?_
    rw [div_le_div_iff₀ (by positivity) (by positivity)]
    nlinarith
  · unfold sphDivLinErrNorm
    rw [dif_neg (by omega : ¬ n = 0)]
    apply Finset.sup'_le
    intro i hi
    exact sphDivLinErr_le n i hn (Finset.mem_range.mp hi)

theorem claim2_witness :
    |cartDivErr (3 * 1) 0| ≤ 1 / ((1 : ℕ) : ℝ) ^ 2 ∧
    sphDivLinErrNorm 1 ≤ 3 / ((1 : ℕ) : ℝ) :=
  ⟨(claim2_divergence_rates 1 (by decide)).1 0 (by decide),
   (claim2_divergence_rates 1 (by decide)).2⟩

/-- C3: for the single spherical domain with face flux r squared times sine
r, every cell error of the discretised divergence against the analytic
divergence is bounded by a constant over the square of the cell count
(quadratic convergence). -/
theorem claim3_spherical_div_quadratic (n : ℕ) (hn : 1 ≤ n) :
    ∀ i, i < n → |sphDivSqErr n i| ≤ 4 / (n : ℝ) ^ 2 :=
  fun i hi => sphDivSqErr_le n i hn hi

theorem claim3_witness : |sphDivSqErr 1 0| ≤ 4 / ((1 : ℕ) : ℝ) ^ 2 :=
  claim3_spherical_div_quadratic 1 (by decide) 0 (by decide)

lemma p2dIndexDiv (n j i : ℕ) (hi : i < n + 1) : (j * (n + 1) + i) / (n + 1) = j := by
  rw [Nat.add_comm, Nat.add_mul_div_right _ _ (by omega : 0 < n + 1),
    Nat.div_eq_of_lt hi, Nat.zero_add]

lemma p2dIndexMod (n j i : ℕ) (hi : i < n + 1) : (j * (n + 1) + i) % (n + 1) = i := by
  rw [Nat.add_comm, Nat.add_mul_mod_self_right, Nat.mod_eq_of_lt hi]

lemma p2dDiv_eq_scaled (n : ℕ) (hn : 1 ≤ n) (c : ℕ → ℝ) (flux : ℝ → ℝ) (k : ℕ) :
    p2dDivSpherical n (p2dEdgeFlux n c flux) k =
      c (k / n) * fvDivSpherical n flux (k % n) := by
  have hin : k % n < n := Nat.mod_lt _ (by omega)
  unfold p2dDivSpherical p2dEdgeFlux fvDivSpherical
  rw [show k / n * (n + 1) + k % n + 1 = k / n * (n + 1) + (k % n + 1) by ring]
  rw [p2dIndexDiv n (k / n) (k % n + 1) (by omega),
    p2dIndexMod n (k / n) (k % n + 1) (by omega),
    p2dIndexDiv n (k / n) (k % n) (by omega),
    p2dIndexMod n (k / n) (k % n) (by omega)]
  ring

/-- C4: the product-domain spherical divergence applies the single-domain
operator blockwise: with the flux replicated over every primary position it
agrees with the single-domain operator at every position, and with a flux
scaled per position by a primary-domain weight it equals the weight times
the single-domain result; for the flux r squared times sine r both versions
converge quadratically to the correspondingly scaled analytic divergence. -/
theorem claim4_p2d_replication (n : ℕ) (hn : 1 ≤ n) (c : ℕ → ℝ) (flux : ℝ → ℝ)
    (k : ℕ) :
    (p2dDivSpherical n (p2dEdgeFlux n (fun _ => 1) flux) k =
      fvDivSpherical n flux (k % n)) ∧
    (p2dDivSpherical n (p2dEdgeFlux n c flux) k =
      c (k / n) * fvDivSpherical n flux (k % n)) ∧
    (|p2dDivSpherical n (p2dEdgeFlux n (fun _ => 1) (fun r => r ^ 2 * Real.sin r)) k -
      sphDivSqExact (meshNode n (k % n))| ≤ 4 / (n : ℝ) ^ 2) ∧
    (|c (k / n)| ≤ 1 →
      |p2dDivSpherical n (p2dEdgeFlux n c (fun r => r ^ 2 * Real.sin r)) k -
        c (k / n) * sphDivSqExact (meshNode n (k % n))| ≤ 4 / (n : ℝ) ^ 2) := by
  have hin : k % n < n := Nat.mod_lt _ (by omega)
  have herr : ∀ c' : ℕ → ℝ,
      p2dDivSpherical n (p2dEdgeFlux n c' (fun r => r ^ 2 * Real.sin r)) k -
        c' (k / n) * sphDivSqExact (meshNode n (k % n)) =
        c' (k / n) * sphDivSqErr n (k % n) := by
    intro c'
    rw [p2dDiv_eq_scaled n hn c' _ k]
    unfold sphDivSqErr sphDivSqExact
    ring
  refine ⟨?_, p2dDiv_eq_scaled n hn c flux k, ?_, ?_⟩
  · rw [p2dDiv_eq_scaled n hn (fun _ => 1) flux k, one_mul]
  · have h := herr (fun _ => 1)
    simp only [one_mul] at h
    rw [sub_eq_iff_eq_add] at h
    rw [h, show sphDivSqErr n (k % n) + sphDivSqExact (meshNode n (k % n)) -
      sphDivSqExact (meshNode n (k % n)) = sphDivSqErr n (k % n) by ring]
    exact sphDivSqErr_le n (k % n) hn hin
  · intro hc
    rw [show p2dDivSpherical n (p2dEdgeFlux n c (fun r => r ^ 2 * Real.sin r)) k -
      c (k / n) * sphDivSqExact (meshNode n (k % n)) =
      c (k / n) * sphDivSqErr n (k % n) from herr c, abs_mul]
    calc |c (k / n)| * |sphDivSqErr n (k % n)| ≤ 1 * (4 / (n : ℝ) ^ 2) :=
        mul_le_mul hc (sphDivSqErr_le n (k % n) hn hin) (abs_nonneg _) zero_le_one
      _ = 4 / (n : ℝ) ^ 2 := one_mul _

theorem claim4_witness :
    (p2dDivSpherical 1 (p2dEdgeFlux 1 (fun _ => 1) Real.sin) 0 =
      fvDivSpherical 1 Real.sin (0 % 1)) ∧
    (|p2dDivSpherical 1
        (p2dEdgeFlux 1 (fun _ => (1 : ℝ) / 2) (fun r => r ^ 2 * Real.sin r)) 0 -
      (1 : ℝ) / 2 * sphDivSqExact (meshNode 1 (0 % 1))| ≤ 4 / ((1 : ℕ) : ℝ) ^ 2) :=
  ⟨(claim4_p2d_replication 1 (by decide) (fun _ => (1 : ℝ) / 2) Real.sin 0).1,
   (claim4_p2d_replication 1 (by decide) (fun _ => (1 : ℝ) / 2) Real.sin 0).2.2.2
     (by rw [abs_of_pos] <;> norm_num)⟩
